import Mathlib

/-!
# DNSherpa: verification of the host-discovery / DNS-record-synthesis core

Shallow embedding of the DNSherpa Go sources (config.go, docker.go,
proxmox.go, the etcd client file) into Lean 4, together with theorems
settling the specification claims.  Go strings are modelled as Lean
`String` (a wrapper around `List Char`); Go byte-level operations on
ASCII data coincide with the character-level model used here.
-/

/-! ## Go string primitives

`strings.Split` / `strings.Join` with a single-character separator,
`strings.HasPrefix`, `strings.TrimSpace`, `strings.Contains` — modelled
on `List Char` and lifted to `String`. -/

/-- Prepend a character to the first piece of a split result
(helper for `splitC`; a split result is never empty). -/
def consHead (c : Char) : List (List Char) → List (List Char)
  | [] => [[c]]
  | h :: t => (c :: h) :: t

/-- Go `strings.Split s sep` for a one-character separator, on `List Char`:
returns the (possibly empty) pieces between occurrences of `sep`;
`splitC sep [] = [[]]`, matching Go's `Split("", sep) = [""]`. -/
def splitC (sep : Char) : List Char → List (List Char)
  | [] => [[]]
  | c :: cs => if c = sep then [] :: splitC sep cs else consHead c (splitC sep cs)

/-- Go `strings.Join l sep` for a one-character separator, on `List Char`. -/
def joinC (sep : Char) : List (List Char) → List Char
  | [] => []
  | [x] => x
  | x :: y :: t => x ++ sep :: joinC sep (y :: t)

/-- Go `strings.Split` lifted to `String`. -/
def goSplit (s : String) (sep : Char) : List String :=
  (splitC sep s.data).map String.mk

/-- Go `strings.Join` lifted to `String`. -/
def goJoin (l : List String) (sep : Char) : String :=
  String.mk (joinC sep (l.map String.data))

theorem splitC_ne_nil (sep : Char) (l : List Char) : splitC sep l ≠ [] := by
  cases l with
  | nil => simp [splitC]
  | cons c cs =>
    simp only [splitC]
    split
    · simp
    · cases h : splitC sep cs <;> simp [consHead]

theorem joinC_consHead (sep : Char) (c : Char) (l : List (List Char)) :
    joinC sep (consHead c l) = c :: joinC sep l := by
  cases l with
  | nil => simp [consHead, joinC]
  | cons h t =>
    cases t with
    | nil => simp [consHead, joinC]
    | cons h' t' => simp [consHead, joinC]

theorem joinC_cons_of_ne_nil (sep : Char) (l : List (List Char)) (h : l ≠ []) :
    joinC sep ([] :: l) = sep :: joinC sep l := by
  cases l with
  | nil => exact absurd rfl h
  | cons x t => simp [joinC]

/-- Joining a split result recovers the original character list:
`strings.Join(strings.Split(s, sep), sep) = s`. -/
theorem joinC_splitC (sep : Char) (l : List Char) :
    joinC sep (splitC sep l) = l := by
  induction l with
  | nil => simp [splitC, joinC]
  | cons c cs ih =>
    simp only [splitC]
    split
    · rename_i hc
      rw [joinC_cons_of_ne_nil sep _ (splitC_ne_nil sep cs), ih, hc]
    · rw [joinC_consHead, ih]

theorem goJoin_goSplit (s : String) (sep : Char) :
    goJoin (goSplit s sep) sep = s := by
  cases s with
  | mk data =>
    simp only [goSplit, goJoin, List.map_map]
    have : (String.data ∘ String.mk) = id := rfl
    rw [this, List.map_id, joinC_splitC]

/-- Go `strings.HasPrefix`. -/
def goHasPref (p s : String) : Bool :=
  p.data.isPrefixOf s.data

/-- Go `strings.TrimPrefix` (used only under a `goHasPref` guard). -/
def goTrimPref (p s : String) : String :=
  if goHasPref p s then String.mk (s.data.drop p.data.length) else s

/-- Substring occurrence test on character lists (helper for `goContains`). -/
def isInfixC (sub : List Char) : List Char → Bool
  | [] => sub.isEmpty
  | c :: cs => sub.isPrefixOf (c :: cs) || isInfixC sub cs

/-- Go `strings.Contains s sub`. -/
def goContains (s sub : String) : Bool :=
  isInfixC sub.data s.data

/-- Go `strings.TrimSpace` (ASCII whitespace; the hostnames, tags and
addresses handled by this program are ASCII). -/
def trimSpace (s : String) : String :=
  String.mk (((s.data.dropWhile Char.isWhitespace).reverse.dropWhile
    Char.isWhitespace).reverse)

/-! ## Key-path building

`CreateDNSRecord` / `CreateDNSRecords` both derive the etcd key from the
hostname the same way: split on `"."`, reverse the labels in place, join
with `"/"` under the configured etcd prefix
(`key := fmt.Sprintf("%s/%s", config.EtcdPrefix, strings.Join(parts, "/"))`). -/

/-- The reversed label list `parts` after the in-place reversal loop of
`CreateDNSRecord`/`CreateDNSRecords`. -/
def reversedLabels (hostname : String) : List String :=
  (goSplit hostname '.').reverse

/-- The etcd key (resp. base path) both record writers compute for a
hostname. -/
def recordKeyBase (etcdPre hostname : String) : String :=
  etcdPre ++ "/" ++ goJoin (reversedLabels hostname) '/'

/-- C4. For every hostname `h`, the key path is built by splitting `h` on
dots, reversing the labels and joining them with `/` under the prefix, and
reversing the produced path's labels again reconstructs `h` exactly;
the path is a pure function of the hostname (deterministic), so identical
hostnames always produce byte-identical paths. -/
theorem keyPath_reversal_involution (etcdPre h : String) :
    recordKeyBase etcdPre h
      = etcdPre ++ "/" ++ goJoin ((goSplit h '.').reverse) '/'
    ∧ goJoin ((reversedLabels h).reverse) '.' = h := by
  constructor
  · rfl
  · simp only [reversedLabels, List.reverse_reverse]
    exact goJoin_goSplit h '.'

/-! ## `net.ParseIP`

Model of Go's `net.ParseIP`: the first `.` or `:` encountered selects the
IPv4 or IPv6 grammar; IPv4 fields are 1–3 decimal digits without leading
zeros, at most 255; IPv6 is colon-separated groups of 1–4 hex digits with
at most one `::` (expanding to at least one zero group) and an optional
trailing embedded dotted-quad.  The result is the 16-byte address (IPv4
mapped into the `::ffff:0:0/96` range, as Go's `ParseIP` returns a
16-byte slice); `ipTo4` models `IP.To4() != nil`. -/

/-- Decimal digit value of a character, if it is a digit. -/
def decDigit (c : Char) : Option Nat :=
  if '0' ≤ c ∧ c ≤ '9' then some (c.toNat - 48) else none

/-- Hexadecimal digit value of a character, if it is a hex digit. -/
def hexDigit (c : Char) : Option Nat :=
  if '0' ≤ c ∧ c ≤ '9' then some (c.toNat - 48)
  else if 'a' ≤ c ∧ c ≤ 'f' then some (c.toNat - 87)
  else if 'A' ≤ c ∧ c ≤ 'F' then some (c.toNat - 55)
  else none

/-- Value of a digit list under a base, if every character is a digit of
that base. -/
def digitsVal (digit : Char → Option Nat) (base : Nat) : List Char → Option Nat
  | [] => some 0
  | c :: cs =>
    match digit c, digitsVal digit base cs with
    | some _, some _ =>
      (cs.foldl (fun acc d => acc * base + ((digit d).getD 0))
        ((digit c).getD 0) : Nat)
    | _, _ => none

/-- One dotted-quad field: 1–3 decimal digits, value ≤ 255, no leading
zero (Go rejects `012.1.2.3` but accepts a lone `0`). -/
def parseV4Field (cs : List Char) : Option Nat :=
  match cs with
  | [] => none
  | c :: rest =>
    if cs.length > 3 then none
    else if c = '0' ∧ rest ≠ [] then none
    else match digitsVal decDigit 10 cs with
      | some n => if n ≤ 255 then some n else none
      | none => none

/-- Dotted-quad IPv4 parse: exactly four valid fields. -/
def parseIPv4 (cs : List Char) : Option (List Nat) :=
  match (splitC '.' cs).mapM parseV4Field with
  | some fields => if fields.length = 4 then some fields else none
  | none => none

/-- One IPv6 hex group: 1–4 hex digits. -/
def parseHexGroup (cs : List Char) : Option Nat :=
  match cs with
  | [] => none
  | _ =>
    if cs.length > 4 then none
    else digitsVal hexDigit 16 cs

/-- Byte contribution of one colon-separated IPv6 field; only the last
field of the address may be an embedded dotted quad. -/
def groupBytes (isLast : Bool) (cs : List Char) : Option (List Nat) :=
  if cs.contains '.' then
    if isLast then parseIPv4 cs else none
  else
    (parseHexGroup cs).map (fun g => [g / 256, g % 256])

/-- Bytes of a field list whose final field may be an embedded IPv4. -/
def fieldsBytes : List (List Char) → Option (List Nat)
  | [] => some []
  | [f] => groupBytes true f
  | f :: f' :: fs => do
    let b ← groupBytes false f
    let rest ← fieldsBytes (f' :: fs)
    pure (b ++ rest)

/-- Bytes of a field list in which no embedded IPv4 is allowed (the part
of an IPv6 address before a `::`). -/
def fieldsBytesNoV4 : List (List Char) → Option (List Nat)
  | [] => some []
  | f :: fs => do
    let b ← groupBytes false f
    let rest ← fieldsBytesNoV4 fs
    pure (b ++ rest)

/-- Split a character list at the first occurrence of `::`, if any. -/
def findEllipsis : List Char → Option (List Char × List Char)
  | [] => none
  | [_] => none
  | a :: b :: rest =>
    if a = ':' ∧ b = ':' then some ([], rest)
    else (findEllipsis (b :: rest)).map (fun p => (a :: p.1, p.2))

/-- IPv6 parse producing 16 bytes. -/
def parseIPv6 (cs : List Char) : Option (List Nat) :=
  match findEllipsis cs with
  | none =>
    let fs := splitC ':' cs
    if fs.all (· ≠ []) then
      match fieldsBytes fs with
      | some b => if b.length = 16 then some b else none
      | none => none
    else none
  | some (l, r) => do
    let lf := if l = [] then [] else splitC ':' l
    let rf := if r = [] then [] else splitC ':' r
    guard (lf.all (· ≠ []))
    guard (rf.all (· ≠ []))
    let lb ← fieldsBytesNoV4 lf
    let rb ← fieldsBytes rf
    guard (decide (lb.length + rb.length ≤ 14))
    pure (lb ++ List.replicate (16 - lb.length - rb.length) 0 ++ rb)

/-- First `.` or `:` in the string (Go's family dispatch loop). -/
def firstSpecial : List Char → Option Char
  | [] => none
  | c :: cs => if c = '.' ∨ c = ':' then some c else firstSpecial cs

/-- The IPv4-mapped-IPv6 byte embedding used by Go for 4-byte addresses. -/
def v4Mapped (b : List Nat) : List Nat :=
  [0, 0, 0, 0, 0, 0, 0, 0, 0, 0, 255, 255] ++ b

/-- Go `net.ParseIP`: `some bytes` (16 bytes) when the string is a valid
IP literal, `none` otherwise. -/
def parseIP (s : String) : Option (List Nat) :=
  match firstSpecial s.data with
  | some '.' => (parseIPv4 s.data).map v4Mapped
  | some ':' => parseIPv6 s.data
  | _ => none

/-- Go `IP.To4() != nil`: the 16-byte address lies in the IPv4-mapped
range. -/
def ipTo4 (b : List Nat) : Bool :=
  b.take 12 == [0, 0, 0, 0, 0, 0, 0, 0, 0, 0, 255, 255]

/-- Sanity checks of the `net.ParseIP` model on representative inputs:
valid and invalid dotted quads, compressed IPv6 forms, malformed
addresses, and the IPv4-mapped `To4()` behavior. -/
theorem parseIP_sanity :
    parseIP "10.0.0.1" = some (v4Mapped [10, 0, 0, 1])
    ∧ (parseIP "10.0.0.1").map ipTo4 = some true
    ∧ parseIP "notanip" = none
    ∧ parseIP "256.1.1.1" = none
    ∧ parseIP "01.1.1.1" = none
    ∧ (parseIP "::1").map ipTo4 = some false
    ∧ parseIP "::1" = some [0, 0, 0, 0, 0, 0, 0, 0, 0, 0, 0, 0, 0, 0, 0, 1]
    ∧ parseIP "fe80::1"
      = some [254, 128, 0, 0, 0, 0, 0, 0, 0, 0, 0, 0, 0, 0, 0, 1]
    ∧ parseIP "2001:db8::5"
      = some [32, 1, 13, 184, 0, 0, 0, 0, 0, 0, 0, 0, 0, 0, 0, 5]
    ∧ parseIP "1:2:3:4:5:6:7:8:9" = none
    ∧ parseIP "1:::2" = none
    ∧ (parseIP "::ffff:1.2.3.4").map ipTo4 = some true
    ∧ parseIP "192.0.2.5" = some (v4Mapped [192, 0, 2, 5]) := by
  decide

/-! ## `applyMultiIPv4Strategy` (proxmox.go)

`if pc.config.ProxmoxMultiIPv4 == "all" { return ips }` — otherwise the
loop keeps the first address whose `To4()` is non-nil, every parseable
address whose `To4()` is nil, and silently drops strings that fail
`net.ParseIP`. -/

/-- The non-`"all"` loop of `applyMultiIPv4Strategy`, with the
`foundIPv4` flag made explicit. -/
def firstV4AllV6 (found : Bool) : List String → List String
  | [] => []
  | ip :: rest =>
    match parseIP ip with
    | some b =>
      if ipTo4 b then
        if found then firstV4AllV6 true rest
        else ip :: firstV4AllV6 true rest
      else ip :: firstV4AllV6 found rest
    | none => firstV4AllV6 found rest

/-- `applyMultiIPv4Strategy` from proxmox.go. -/
def applyMultiIPv4Strategy (multiIPv4 : String) (ips : List String) : List String :=
  if multiIPv4 = "all" then ips else firstV4AllV6 false ips

/-- The string parses and `To4()` is non-nil (an IPv4, or IPv4-mapped,
address). -/
def isV4Str (s : String) : Bool :=
  match parseIP s with
  | some b => ipTo4 b
  | none => false

/-- The string parses and `To4()` is nil (a genuine IPv6 address). -/
def isV6Str (s : String) : Bool :=
  match parseIP s with
  | some b => !ipTo4 b
  | none => false

theorem mem_firstV4AllV6_isSome {found : Bool} {l : List String} {ip : String}
    (h : ip ∈ firstV4AllV6 found l) : (parseIP ip).isSome := by
  induction l generalizing found with
  | nil => simp [firstV4AllV6] at h
  | cons x rest ih =>
    simp only [firstV4AllV6] at h
    cases hp : parseIP x with
    | none => rw [hp] at h; exact ih h
    | some b =>
      rw [hp] at h
      by_cases h4 : ipTo4 b
      · simp only [h4, if_true] at h
        cases found with
        | true => exact ih h
        | false =>
          rcases List.mem_cons.mp h with h | h
          · subst h; simp [hp]
          · exact ih h
      · simp only [h4, if_false, Bool.false_eq_true] at h
        rcases List.mem_cons.mp h with h | h
        · subst h; simp [hp]
        · exact ih h

theorem mem_firstV4AllV6_true_not_v4 {l : List String} {ip : String}
    (h : ip ∈ firstV4AllV6 true l) : isV4Str ip = false := by
  induction l with
  | nil => simp [firstV4AllV6] at h
  | cons x rest ih =>
    simp only [firstV4AllV6] at h
    cases hp : parseIP x with
    | none => rw [hp] at h; exact ih h
    | some b =>
      rw [hp] at h
      by_cases h4 : ipTo4 b
      · simp only [h4, if_true] at h
        exact ih h
      · simp only [h4, if_false, Bool.false_eq_true] at h
        rcases List.mem_cons.mp h with h | h
        · subst h; simp [isV4Str, hp, h4]
        · exact ih h

theorem countP_firstV4AllV6_true {l : List String} :
    (firstV4AllV6 true l).countP isV4Str = 0 := by
  rw [List.countP_eq_zero]
  intro a ha
  simpa using mem_firstV4AllV6_true_not_v4 ha

theorem countP_firstV4AllV6_false (l : List String) :
    (firstV4AllV6 false l).countP isV4Str ≤ 1 := by
  induction l with
  | nil => simp [firstV4AllV6]
  | cons x rest ih =>
    cases hp : parseIP x with
    | none => simpa only [firstV4AllV6, hp] using ih
    | some b =>
      by_cases h4 : ipTo4 b
      · simp only [firstV4AllV6, hp, h4, if_true, Bool.false_eq_true, if_false,
          List.countP_cons]
        rw [countP_firstV4AllV6_true]
        have hx : isV4Str x = true := by simp [isV4Str, hp, h4]
        simp [hx]
      · have hx : isV4Str x = false := by simp [isV4Str, hp, h4]
        simp only [firstV4AllV6, hp, h4, Bool.false_eq_true, if_false,
          List.countP_cons, hx]
        simpa using ih

theorem filter_firstV4AllV6_v6 (found : Bool) (l : List String) :
    (firstV4AllV6 found l).filter isV6Str = l.filter isV6Str := by
  induction l generalizing found with
  | nil => simp [firstV4AllV6]
  | cons x rest ih =>
    cases hp : parseIP x with
    | none =>
      have hx : isV6Str x = false := by simp [isV6Str, hp]
      simp only [firstV4AllV6, hp, List.filter_cons, hx, Bool.false_eq_true,
        if_false]
      exact ih found
    | some b =>
      by_cases h4 : ipTo4 b
      · have hx : isV6Str x = false := by simp [isV6Str, hp, h4]
        cases found with
        | true =>
          simp only [firstV4AllV6, hp, h4, if_true, List.filter_cons, hx,
            Bool.false_eq_true, if_false]
          exact ih true
        | false =>
          simp only [firstV4AllV6, hp, h4, if_true, Bool.false_eq_true,
            if_false, List.filter_cons, hx]
          exact ih true
      · have hx : isV6Str x = true := by simp [isV6Str, hp, h4]
        simp only [firstV4AllV6, hp, h4, Bool.false_eq_true, if_false,
          List.filter_cons, hx, if_true]
        rw [ih found]

theorem firstV4AllV6_sublist (found : Bool) (l : List String) :
    List.Sublist (firstV4AllV6 found l) l := by
  induction l generalizing found with
  | nil => simp [firstV4AllV6]
  | cons x rest ih =>
    cases hp : parseIP x with
    | none =>
      simp only [firstV4AllV6, hp]
      exact List.Sublist.cons x (ih found)
    | some b =>
      by_cases h4 : ipTo4 b
      · cases found with
        | true =>
          simp only [firstV4AllV6, hp, h4, if_true]
          exact List.Sublist.cons x (ih true)
        | false =>
          simp only [firstV4AllV6, hp, h4, if_true, Bool.false_eq_true,
            if_false]
          exact List.Sublist.cons₂ x (ih true)
      · simp only [firstV4AllV6, hp, h4, Bool.false_eq_true, if_false]
        exact List.Sublist.cons₂ x (ih found)

theorem mem_firstV4AllV6_v4_is_first {l : List String} {ip : String}
    (h : ip ∈ firstV4AllV6 false l) (h4 : isV4Str ip = true) :
    some ip = (l.filter isV4Str).head? := by
  induction l with
  | nil => simp [firstV4AllV6] at h
  | cons x rest ih =>
    cases hp : parseIP x with
    | none =>
      simp only [firstV4AllV6, hp] at h
      have hx : isV4Str x = false := by simp [isV4Str, hp]
      rw [List.filter_cons, if_neg (by simp [hx])]
      exact ih h
    | some b =>
      by_cases hb : ipTo4 b
      · simp only [firstV4AllV6, hp, hb, if_true, Bool.false_eq_true,
          if_false] at h
        have hx : isV4Str x = true := by simp [isV4Str, hp, hb]
        rw [List.filter_cons, if_pos (by simp [hx])]
        rcases List.mem_cons.mp h with h | h
        · subst h; rfl
        · exact absurd h4 (by simp [mem_firstV4AllV6_true_not_v4 h])
      · simp only [firstV4AllV6, hp, hb, Bool.false_eq_true, if_false] at h
        have hx : isV4Str x = false := by simp [isV4Str, hp, hb]
        rw [List.filter_cons, if_neg (by simp [hx])]
        rcases List.mem_cons.mp h with h | h
        · subst h; rw [h4] at hx; cases hx
        · exact ih h

/-- C2 counterexample: under strategy `all`, `applyMultiIPv4Strategy`
returns the input verbatim, so a string that does not parse as an IP
literal survives into the output — the claim that the output contains
only parseable strings under both strategies is false. -/
theorem applyAll_keeps_unparseable :
    applyMultiIPv4Strategy "all" ["notanip"] = ["notanip"]
    ∧ parseIP "notanip" = none := by
  exact ⟨by decide, by decide⟩

/-- C2 (amended). Under any strategy other than `"all"` the output keeps
only strings that parse as IP literals (parse failures silently dropped),
keeps at most one IPv4 address — the first encountered — and all IPv6
addresses, preserving relative order (it is a sublist of the input);
under `"all"` the input list is returned unchanged, including entries
that do not parse as IP literals. -/
theorem multiIPv4Strategy_behavior (s : String) (ips : List String)
    (hs : s ≠ "all") :
    applyMultiIPv4Strategy "all" ips = ips
    ∧ applyMultiIPv4Strategy s ips = firstV4AllV6 false ips
    ∧ (∀ ip ∈ applyMultiIPv4Strategy s ips, (parseIP ip).isSome)
    ∧ (applyMultiIPv4Strategy s ips).countP isV4Str ≤ 1
    ∧ (∀ ip ∈ applyMultiIPv4Strategy s ips, isV4Str ip = true →
        some ip = (ips.filter isV4Str).head?)
    ∧ (applyMultiIPv4Strategy s ips).filter isV6Str = ips.filter isV6Str
    ∧ List.Sublist (applyMultiIPv4Strategy s ips) ips := by
  have he : applyMultiIPv4Strategy s ips = firstV4AllV6 false ips := by
    simp [applyMultiIPv4Strategy, hs]
  refine ⟨by simp [applyMultiIPv4Strategy], he, ?_, ?_, ?_, ?_, ?_⟩
  · intro ip hip
    rw [he] at hip
    exact mem_firstV4AllV6_isSome hip
  · rw [he]
    exact countP_firstV4AllV6_false ips
  · intro ip hip h4
    rw [he] at hip
    exact mem_firstV4AllV6_v4_is_first hip h4
  · rw [he]
    exact filter_firstV4AllV6_v6 false ips
  · rw [he]
    exact firstV4AllV6_sublist false ips

/-- Witness for `multiIPv4Strategy_behavior` at strategy `"first"` and a
concrete mixed list. -/
theorem multiIPv4Strategy_behavior_witness :
    applyMultiIPv4Strategy "all" ["10.0.0.1", "notanip", "2001:db8::1"]
      = ["10.0.0.1", "notanip", "2001:db8::1"]
    ∧ applyMultiIPv4Strategy "first" ["10.0.0.1", "notanip", "2001:db8::1"]
      = firstV4AllV6 false ["10.0.0.1", "notanip", "2001:db8::1"] :=
  ⟨(multiIPv4Strategy_behavior "first" _ (by decide)).1,
   (multiIPv4Strategy_behavior "first" _ (by decide)).2.1⟩

/-! ## `extractIPsFromInterface` (proxmox.go)

QEMU VMs: agent-reported interfaces (`vm.AgentGetNetworkIFaces`), keep
addresses of the interface whose name matches, dropping only the literal
strings `"127.0.0.1"` and `"::1"`.  LXC containers: per-interface `Inet`
/ `Inet6` CIDR strings; `Inet` is kept unless empty or `"127.0.0.1/8"`,
`Inet6` unless empty or starting with `"::1/"` or `"fe80::"`; the CIDR
suffix is removed with `strings.Split(s, "/")[0]`.  On agent/interface
query failure the code falls back to `extractIPsFromConfig`, a stub that
returns no addresses (bypassing the strategy); otherwise the collected
list goes through `applyMultiIPv4Strategy`. -/

/-- An agent-reported interface: its name and the `IPAddress` fields of
its `IPAddresses` entries, in order. -/
structure AgentInterface where
  Name : String
  IPAddresses : List String

/-- An LXC container interface with its IPv4 and IPv6 CIDR strings. -/
structure ContainerInterface where
  Name : String
  Inet : String
  Inet6 : String

/-- `strings.Split(s, "/")[0]` — the address part of a CIDR string. -/
def beforeSlash (s : String) : String :=
  (goSplit s '/').headD ""

/-- The QEMU collection loop of `extractIPsFromInterface`. -/
def collectQemuIPs (interfaceName : String) (ifaces : List AgentInterface) :
    List String :=
  ifaces.flatMap (fun iface =>
    if iface.Name = interfaceName then
      iface.IPAddresses.filter
        (fun ip => !(ip == "127.0.0.1") && !(ip == "::1"))
    else [])

/-- The LXC collection loop of `extractIPsFromInterface`. -/
def collectLxcIPs (interfaceName : String) (ifaces : List ContainerInterface) :
    List String :=
  ifaces.flatMap (fun iface =>
    if iface.Name = interfaceName then
      (if iface.Inet ≠ "" ∧ iface.Inet ≠ "127.0.0.1/8" then
        [beforeSlash iface.Inet] else [])
      ++ (if iface.Inet6 ≠ "" ∧ goHasPref "::1/" iface.Inet6 = false
            ∧ goHasPref "fe80::" iface.Inet6 = false then
        [beforeSlash iface.Inet6] else [])
    else [])

/-- Live interface data the virtualization platform reports for one
resource; `none` models a failed agent / interface query. -/
structure InterfaceData where
  agentIfaces : Option (List AgentInterface)
  lxcIfaces : Option (List ContainerInterface)

/-- `extractIPsFromConfig`: the static-configuration fallback, a stub
that returns no addresses. -/
def extractIPsFromConfig : List String := []

/-- `extractIPsFromInterface` from proxmox.go. -/
def extractIPsFromInterface (multiIPv4 : String) (rtype : String)
    (data : InterfaceData) (interfaceName : String) : List String :=
  if rtype = "qemu" then
    match data.agentIfaces with
    | none => extractIPsFromConfig
    | some ifaces =>
      applyMultiIPv4Strategy multiIPv4 (collectQemuIPs interfaceName ifaces)
  else if rtype = "lxc" then
    match data.lxcIfaces with
    | none => extractIPsFromConfig
    | some ifaces =>
      applyMultiIPv4Strategy multiIPv4 (collectLxcIPs interfaceName ifaces)
  else applyMultiIPv4Strategy multiIPv4 []

/-- The interface data of the specification's worked example, reported by
the QEMU agent for interface `eth0`. -/
def exampleAgentData : InterfaceData :=
  ⟨some [⟨"eth0",
    ["10.0.0.1", "10.0.0.2", "fe80::1", "2001:db8::1", "2001:db8::2"]⟩],
   none⟩

/-- C3 counterexample: on the specification's own example address list,
the QEMU path keeps the link-local address `fe80::1` (only the literal
strings `127.0.0.1` and `::1` are dropped), so the result under `first`
is not the `[10.0.0.1, 2001:db8::1, 2001:db8::2]` the claim states. -/
theorem qemu_keeps_linkLocal :
    extractIPsFromInterface "first" "qemu" exampleAgentData "eth0"
      = ["10.0.0.1", "fe80::1", "2001:db8::1", "2001:db8::2"]
    ∧ ["10.0.0.1", "fe80::1", "2001:db8::1", "2001:db8::2"]
      ≠ ["10.0.0.1", "2001:db8::1", "2001:db8::2"] := by
  exact ⟨by decide, by decide⟩

/-- C3 (amended). Exclusions are by literal string, not by address class:
the QEMU path drops exactly the agent-reported strings `"127.0.0.1"` and
`"::1"` (link-local addresses are kept); the LXC path emits an address
only from a matching interface whose `Inet` is non-empty and not
`"127.0.0.1/8"`, or whose `Inet6` is non-empty and starts with neither
`"::1/"` nor `"fe80::"`.  On the specification's example address list the
QEMU result under `first` is `[10.0.0.1, fe80::1, 2001:db8::1,
2001:db8::2]` and under `all` is the full input. -/
theorem interface_exclusion_behavior :
    (∀ (name : String) (ifaces : List AgentInterface),
      "127.0.0.1" ∉ collectQemuIPs name ifaces
      ∧ "::1" ∉ collectQemuIPs name ifaces)
    ∧ (∀ (name : String) (ifaces : List ContainerInterface) (s : String),
        s ∈ collectLxcIPs name ifaces →
        ∃ i ∈ ifaces, i.Name = name ∧
          ((s = beforeSlash i.Inet ∧ i.Inet ≠ "" ∧ i.Inet ≠ "127.0.0.1/8")
           ∨ (s = beforeSlash i.Inet6 ∧ i.Inet6 ≠ ""
              ∧ goHasPref "::1/" i.Inet6 = false
              ∧ goHasPref "fe80::" i.Inet6 = false)))
    ∧ extractIPsFromInterface "first" "qemu" exampleAgentData "eth0"
      = ["10.0.0.1", "fe80::1", "2001:db8::1", "2001:db8::2"]
    ∧ extractIPsFromInterface "all" "qemu" exampleAgentData "eth0"
      = ["10.0.0.1", "10.0.0.2", "fe80::1", "2001:db8::1", "2001:db8::2"] := by
  refine ⟨?_, ?_, by decide, by decide⟩
  · intro name ifaces
    constructor <;>
    · intro hmem
      simp only [collectQemuIPs, List.mem_flatMap] at hmem
      obtain ⟨iface, -, hm⟩ := hmem
      split at hm
      · have := List.of_mem_filter hm
        simp at this
      · simp at hm
  · intro name ifaces s hmem
    simp only [collectLxcIPs, List.mem_flatMap] at hmem
    obtain ⟨i, hi, hm⟩ := hmem
    split at hm
    · rename_i hn
      refine ⟨i, hi, hn, ?_⟩
      rcases List.mem_append.mp hm with h | h
      · split at h
        · rename_i hc
          exact Or.inl ⟨List.mem_singleton.mp h, hc.1, hc.2⟩
        · simp at h
      · split at h
        · rename_i hc
          exact Or.inr ⟨List.mem_singleton.mp h, hc.1, hc.2.1, hc.2.2⟩
        · simp at h
    · simp at hm

/-! ## Configuration (config.go) and tag handling (proxmox.go) -/

/-- The configuration fields the discovery core reads (config.go). -/
structure Config where
  EtcdPrefix : String
  DNSTarget : String
  RecordTTL : Nat
  Domain : String
  ProxmoxInterface : String
  ProxmoxMultiIPv4 : String

/-- `getEnv` (config.go): the environment value when non-empty, else the
default; `os.Getenv` returns `""` for unset variables, modelled by the
oracle `env`. -/
def getEnv (env : String → String) (key defaultValue : String) : String :=
  if env key ≠ "" then env key else defaultValue

/-- `LoadConfig` (config.go), restricted to the fields the discovery core
reads.  `dnsTarget` stands for the value `detectDNSTarget()` derives from
the environment and the mounted hostname file; `RecordTTL` is the
hard-coded `300`. -/
def LoadConfig (env : String → String) (dnsTarget : String) : Config :=
  { EtcdPrefix := getEnv env "ETCD_PREFIX" "/skydns"
    DNSTarget := dnsTarget
    RecordTTL := 300
    Domain := getEnv env "DOMAIN" ""
    ProxmoxInterface := getEnv env "PROXMOX_INTERFACE" "eth0"
    ProxmoxMultiIPv4 := getEnv env "PROXMOX_MULTI_IPV4" "first" }

/-- A configuration built from an empty environment: every field at its
default (`/skydns`, ttl 300, empty domain, `eth0`, `first`), with DNS
target `dns.example.com`. -/
def demoCfg : Config :=
  LoadConfig (fun _ => "") "dns.example.com"

/-- `hasTagInList` (proxmox.go): whitespace-trimmed membership. -/
def hasTagInList (tags : List String) (tag : String) : Bool :=
  tags.any (fun t => trimSpace t == tag)

/-- `getTagValue` (proxmox.go): the text after `prefix + ":"` of the
first whitespace-trimmed tag starting with it, `""` when none does. -/
def getTagValue : List String → String → String
  | [], _ => ""
  | t :: rest, p =>
    if goHasPref (p ++ ":") (trimSpace t) then
      goTrimPref (p ++ ":") (trimSpace t)
    else getTagValue rest p

/-- Modelled from the spec: `HasTag` of the external go-proxmox client
library (not part of this repository).  The spec's tag contract says tags
are a single string of entries separated by `;`, with `dnsherpa-skip` a
boolean opt-out entry, so `HasTag` is membership of the tag among the
`;`-separated entries. -/
def HasTag (tagsStr tag : String) : Bool :=
  (goSplit tagsStr ';').any (fun t => t == tag)

/-- `generateHostname` (proxmox.go): append the configured domain when
the resource name has no dot and a domain is configured. -/
def generateHostname (cfg : Config) (vmName : String) : String :=
  if goContains vmName "." = false ∧ cfg.Domain ≠ "" then
    vmName ++ "." ++ cfg.Domain
  else vmName

/-- The interface name `getResourceIPs` resolves: the
`dnsherpa-interface` tag when present, else the process-wide configured
interface. -/
def resolvedIfaceName (cfg : Config) (tags : List String) : String :=
  let tagIface := getTagValue tags "dnsherpa-interface"
  if tagIface = "" then cfg.ProxmoxInterface else tagIface

/-- `getResourceIPs` (proxmox.go): a non-empty `dnsherpa-ip` tag value is
split on commas, each entry trimmed and kept when it parses as an IP
literal, and returned without further resolution; otherwise the live
interface data is consulted through `extractIPsFromInterface`. -/
def getResourceIPs (cfg : Config) (tags : List String) (rtype : String)
    (data : InterfaceData) : List String :=
  let specificIPs := getTagValue tags "dnsherpa-ip"
  if specificIPs ≠ "" then
    ((goSplit specificIPs ',').map trimSpace).filter
      (fun ip => (parseIP ip).isSome)
  else
    extractIPsFromInterface cfg.ProxmoxMultiIPv4 rtype data
      (resolvedIfaceName cfg tags)

/-- C7. When the tag set carries a `dnsherpa-ip:<csv>` entry with a
non-empty value, `getResourceIPs` returns exactly the comma-separated
entries (trimmed) that parse as IP literals, dropping invalid entries,
and never consults the live interface data: the result is identical for
any two interface-data states, whether zero or more valid addresses
result. -/
theorem explicit_ip_tag_behavior (cfg : Config) (tags : List String)
    (rtype : String) (data data' : InterfaceData)
    (h : getTagValue tags "dnsherpa-ip" ≠ "") :
    getResourceIPs cfg tags rtype data
      = ((goSplit (getTagValue tags "dnsherpa-ip") ',').map trimSpace).filter
          (fun ip => (parseIP ip).isSome)
    ∧ getResourceIPs cfg tags rtype data = getResourceIPs cfg tags rtype data' := by
  constructor <;> simp only [getResourceIPs, if_pos h]

/-- Witness for `explicit_ip_tag_behavior`: a resource tagged
`dnsherpa-ip:192.0.2.5,2001:db8::5` yields exactly those two addresses,
with the live interface data ignored entirely. -/
theorem explicit_ip_tag_behavior_witness :
    getResourceIPs demoCfg ["dnsherpa-ip:192.0.2.5,2001:db8::5"] "qemu"
        exampleAgentData
      = getResourceIPs demoCfg ["dnsherpa-ip:192.0.2.5,2001:db8::5"] "qemu"
        ⟨none, none⟩
    ∧ getResourceIPs demoCfg ["dnsherpa-ip:192.0.2.5,2001:db8::5"] "qemu"
        exampleAgentData
      = ["192.0.2.5", "2001:db8::5"] :=
  ⟨(explicit_ip_tag_behavior demoCfg ["dnsherpa-ip:192.0.2.5,2001:db8::5"]
      "qemu" exampleAgentData ⟨none, none⟩ (by decide)).2,
   by decide⟩

/-- C8 counterexample: with strategy `first`, a resource tagged
`dnsherpa-ip:10.0.0.1,10.0.0.2` gets both IPv4 addresses back — the
explicit-tag path returns its parsed entries verbatim, while the §4.2
strategy applied to those addresses would keep only the first one.  So
the multi-address strategy is not applied on every address-producing
path before returning. -/
theorem explicitIP_tag_skips_strategy :
    demoCfg.ProxmoxMultiIPv4 = "first"
    ∧ getResourceIPs demoCfg ["dnsherpa-ip:10.0.0.1,10.0.0.2"] "qemu"
        ⟨none, none⟩
      = ["10.0.0.1", "10.0.0.2"]
    ∧ applyMultiIPv4Strategy demoCfg.ProxmoxMultiIPv4 ["10.0.0.1", "10.0.0.2"]
      = ["10.0.0.1"]
    ∧ ["10.0.0.1", "10.0.0.2"] ≠ ["10.0.0.1"] := by
  refine ⟨by decide, by decide, by decide, by decide⟩

/-- C8 (amended). The multi-address strategy of §4.2 is applied to the
collected addresses only on the live-interface resolution path (for both
QEMU agent data and LXC interface enumeration); the explicit
`dnsherpa-ip` path returns its parsed entries without applying the
strategy, and the static fallback returns no addresses at all (the
strategy is bypassed there). -/
theorem strategy_applied_on_interface_path (cfg : Config) (tags : List String)
    (data : InterfaceData) (hno : getTagValue tags "dnsherpa-ip" = "") :
    (∀ ifaces, data.agentIfaces = some ifaces →
      getResourceIPs cfg tags "qemu" data
        = applyMultiIPv4Strategy cfg.ProxmoxMultiIPv4
            (collectQemuIPs (resolvedIfaceName cfg tags) ifaces))
    ∧ (∀ ifaces, data.lxcIfaces = some ifaces →
      getResourceIPs cfg tags "lxc" data
        = applyMultiIPv4Strategy cfg.ProxmoxMultiIPv4
            (collectLxcIPs (resolvedIfaceName cfg tags) ifaces))
    ∧ (data.agentIfaces = none →
      getResourceIPs cfg tags "qemu" data = [])
    ∧ (data.lxcIfaces = none →
      getResourceIPs cfg tags "lxc" data = []) := by
  refine ⟨?_, ?_, ?_, ?_⟩
  · intro ifaces hif
    simp [getResourceIPs, hno, extractIPsFromInterface, hif]
  · intro ifaces hif
    simp [getResourceIPs, hno, extractIPsFromInterface, hif]
  · intro hif
    simp [getResourceIPs, hno, extractIPsFromInterface, hif,
      extractIPsFromConfig]
  · intro hif
    simp [getResourceIPs, hno, extractIPsFromInterface, hif,
      extractIPsFromConfig]

/-- Witness for `strategy_applied_on_interface_path` at a concrete
untagged resource with live agent data. -/
theorem strategy_applied_on_interface_path_witness :
    getResourceIPs demoCfg [] "qemu" exampleAgentData
      = applyMultiIPv4Strategy demoCfg.ProxmoxMultiIPv4
          (collectQemuIPs (resolvedIfaceName demoCfg [])
            [⟨"eth0",
              ["10.0.0.1", "10.0.0.2", "fe80::1", "2001:db8::1",
               "2001:db8::2"]⟩]) :=
  (strategy_applied_on_interface_path demoCfg [] exampleAgentData
    (by decide)).1 _ rfl

/-! ## DNS record values and the etcd store (etcd client file)

`DNSRecord` is `struct { Host string `json:"host,omitempty"`; TTL int
`json:"ttl"` }`; `json.Marshal` omits the `host` field when the target is
the empty string and HTML-escapes `<`, `>`, `&` by default.  The store is
modelled as a map from key to stored value; a put is last-write-wins. -/

/-- Lower-case hex digit character of a value below 16. -/
def hexChar (n : Nat) : Char :=
  if n < 10 then Char.ofNat (48 + n) else Char.ofNat (87 + n)

/-- `encoding/json` escaping of one character inside a string value,
including the default HTML escaping of `<`, `>` and `&`. -/
def jsonEscapeChar (c : Char) : List Char :=
  if c = '"' then ['\\', '"']
  else if c = '\\' then ['\\', '\\']
  else if c = '\n' then ['\\', 'n']
  else if c = '\r' then ['\\', 'r']
  else if c = '\t' then ['\\', 't']
  else if c.toNat < 32 ∨ c = '<' ∨ c = '>' ∨ c = '&' then
    ['\\', 'u', '0', '0', hexChar (c.toNat / 16), hexChar (c.toNat % 16)]
  else if c.toNat = 8232 ∨ c.toNat = 8233 then
    ['\\', 'u', '2', '0', '2', hexChar (c.toNat % 16)]
  else [c]

/-- `encoding/json` escaping of a whole string value. -/
def jsonEscape (s : String) : String :=
  String.mk (s.data.flatMap jsonEscapeChar)

/-- `json.Marshal(DNSRecord{Host: host, TTL: ttl})`: the `host` field
carries `json:"host,omitempty"` and is omitted when `host` is empty. -/
def dnsRecordJSON (host : String) (ttl : Nat) : String :=
  if host = "" then "\x7b\"ttl\":" ++ toString ttl ++ "\x7d"
  else
    "\x7b\"host\":\"" ++ jsonEscape host ++ "\",\"ttl\":" ++ toString ttl
      ++ "\x7d"

/-- The etcd record store: key to stored value. -/
def Store : Type := String → Option String

/-- One etcd put (last-write-wins upsert). -/
def putStore (σ : Store) (k v : String) : Store :=
  fun k' => if k' = k then some v else σ k'

/-- The store after a sequence of puts, applied in order. -/
def applyWrites (σ : Store) : List (String × String) → Store
  | [] => σ
  | (k, v) :: rest => applyWrites (putStore σ k v) rest

/-- The value of the last put on a key in a put sequence, if any. -/
def lastVal : List (String × String) → String → Option String
  | [], _ => none
  | (k', v) :: rest, k =>
    match lastVal rest k with
    | some v' => some v'
    | none => if k = k' then some v else none

theorem applyWrites_apply (σ : Store) (L : List (String × String))
    (k : String) :
    applyWrites σ L k
      = match lastVal L k with
        | some v => some v
        | none => σ k := by
  induction L generalizing σ with
  | nil => simp [applyWrites, lastVal]
  | cons p rest ih =>
    obtain ⟨k', v⟩ := p
    simp only [applyWrites, lastVal]
    rw [ih]
    cases h : lastVal rest k with
    | some v' => simp
    | none =>
      simp only [putStore]
      by_cases hk : k = k' <;> simp [hk]

/-- Replaying an identical put sequence leaves the store unchanged:
the last write per key is the same in both passes. -/
theorem applyWrites_idem (σ : Store) (L : List (String × String)) :
    applyWrites (applyWrites σ L) L = applyWrites σ L := by
  funext k
  rw [applyWrites_apply (applyWrites σ L) L k]
  cases h : lastVal L k with
  | some v =>
    rw [applyWrites_apply σ L k, h]
  | none => rfl

/-- `CreateDNSRecord` (etcd client): the single put performed for a
Docker-discovered hostname — reverse-label key under the etcd prefix and
value `json.Marshal(DNSRecord{Host: config.DNSTarget, TTL:
config.RecordTTL})`.  The A/AAAA/CNAME distinction in the source is
logging only; the written record is identical in all three cases. -/
def CreateDNSRecord (cfg : Config) (hostname : String) : String × String :=
  (recordKeyBase cfg.EtcdPrefix hostname,
   dnsRecordJSON cfg.DNSTarget cfg.RecordTTL)

/-- The loop of `CreateDNSRecords` (etcd client): one put per parseable
address, keyed `basePath/a<N>` for the N-th IPv4 (`To4() != nil`) and
`basePath/aaaa<N>` for the N-th IPv6, both 1-indexed; strings that fail
`net.ParseIP` are skipped without a put.  `putOk` says whether the etcd
put of a key succeeds; a failed put stops the loop and returns an error,
leaving the puts already made in place.  The etcd effect of a run is
`applyWrites` of the returned put list. -/
def createDNSRecordsLoop (ttl : Nat) (putOk : String → Bool)
    (hostname basePath : String) (ipv4Count ipv6Count : Nat) :
    List String → List (String × String) × Option String
  | [] => ([], none)
  | ip :: rest =>
    match parseIP ip with
    | some b =>
      if ipTo4 b then
        let key := basePath ++ "/a" ++ toString (ipv4Count + 1)
        if putOk key then
          let r := createDNSRecordsLoop ttl putOk hostname basePath
            (ipv4Count + 1) ipv6Count rest
          ((key, dnsRecordJSON ip ttl) :: r.1, r.2)
        else ([], some ("failed to create A record for " ++ hostname))
      else
        let key := basePath ++ "/aaaa" ++ toString (ipv6Count + 1)
        if putOk key then
          let r := createDNSRecordsLoop ttl putOk hostname basePath
            ipv4Count (ipv6Count + 1) rest
          ((key, dnsRecordJSON ip ttl) :: r.1, r.2)
        else ([], some ("failed to create AAAA record for " ++ hostname))
    | none => createDNSRecordsLoop ttl putOk hostname basePath
        ipv4Count ipv6Count rest

/-- `CreateDNSRecords` (etcd client): the put sequence and error result
for one hostname and its resolved addresses. -/
def CreateDNSRecords (cfg : Config) (putOk : String → Bool)
    (hostname : String) (ips : List String) :
    List (String × String) × Option String :=
  createDNSRecordsLoop cfg.RecordTTL putOk hostname
    (recordKeyBase cfg.EtcdPrefix hostname) 0 0 ips

/-- The key sequence the multi-address scheme prescribes: `a<N>` for the
N-th IPv4 address and `aaaa<N>` for the N-th IPv6 address, 1-indexed per
family, in resolution order — a suffix for every address, also when only
one address resolved. -/
def specSuffixKeys (basePath : String) : List String → Nat → Nat → List String
  | [], _, _ => []
  | ip :: rest, n4, n6 =>
    match parseIP ip with
    | some b =>
      if ipTo4 b then
        (basePath ++ "/a" ++ toString (n4 + 1))
          :: specSuffixKeys basePath rest (n4 + 1) n6
      else
        (basePath ++ "/aaaa" ++ toString (n6 + 1))
          :: specSuffixKeys basePath rest n4 (n6 + 1)
    | none => specSuffixKeys basePath rest n4 n6

theorem createDNSRecordsLoop_keys (ttl : Nat) (hostname basePath : String)
    (ips : List String) (n4 n6 : Nat) :
    ((createDNSRecordsLoop ttl (fun _ => true) hostname basePath n4 n6
        ips).1).map Prod.fst
      = specSuffixKeys basePath ips n4 n6 := by
  induction ips generalizing n4 n6 with
  | nil => simp [createDNSRecordsLoop, specSuffixKeys]
  | cons ip rest ih =>
    cases hp : parseIP ip with
    | none => simp only [createDNSRecordsLoop, specSuffixKeys, hp]; exact ih n4 n6
    | some b =>
      by_cases h4 : ipTo4 b
      · simp only [createDNSRecordsLoop, specSuffixKeys, hp, h4, if_true,
          List.map_cons, List.cons.injEq]
        exact ⟨trivial, ih (n4 + 1) n6⟩
      · simp only [createDNSRecordsLoop, specSuffixKeys, hp, h4,
          Bool.false_eq_true, if_false, if_true, List.map_cons,
          List.cons.injEq]
        exact ⟨trivial, ih n4 (n6 + 1)⟩

theorem mem_specSuffixKeys_longer (basePath : String) (ips : List String)
    (n4 n6 : Nat) (k : String) (hk : k ∈ specSuffixKeys basePath ips n4 n6) :
    basePath.length < k.length := by
  induction ips generalizing n4 n6 with
  | nil => simp [specSuffixKeys] at hk
  | cons ip rest ih =>
    cases hp : parseIP ip with
    | none =>
      simp only [specSuffixKeys, hp] at hk
      exact ih n4 n6 hk
    | some b =>
      by_cases h4 : ipTo4 b
      · simp only [specSuffixKeys, hp, h4, if_true, List.mem_cons] at hk
        rcases hk with hk | hk
        · subst hk
          simp only [String.length_append]
          have : 0 < ("/a" : String).length := by decide
          omega
        · exact ih (n4 + 1) n6 hk
      · simp only [specSuffixKeys, hp, h4, Bool.false_eq_true, if_false,
          List.mem_cons] at hk
        rcases hk with hk | hk
        · subst hk
          simp only [String.length_append]
          have : 0 < ("/aaaa" : String).length := by decide
          omega
        · exact ih n4 (n6 + 1) hk

/-- C1 counterexample: a Proxmox host with exactly one resolved address
still gets the synthetic `a1` leaf — `CreateDNSRecords` for
`h.example.com` with the single address `10.0.0.1` writes
`/skydns/com/example/h/a1`, not `/skydns/com/example/h`. -/
theorem single_address_key_suffixed :
    ((CreateDNSRecords demoCfg (fun _ => true) "h.example.com"
        ["10.0.0.1"]).1).map Prod.fst
      = ["/skydns/com/example/h/a1"]
    ∧ ("/skydns/com/example/h/a1" : String) ≠ "/skydns/com/example/h" := by
  exact ⟨by decide, by decide⟩

/-- C1 (amended). Every key the Proxmox reconciler writes carries a
synthetic leaf segment, regardless of how many addresses resolved:
the N-th IPv4 address gets `<prefix>/<reversed-labels>/a<N>` and the
N-th IPv6 address `<prefix>/<reversed-labels>/aaaa<N>`, 1-indexed per
family in resolution order; the suffix-free key
`<prefix>/<reversed-labels>` is never written, also for single-address
hosts. -/
theorem createDNSRecords_key_layout (cfg : Config) (hostname : String)
    (ips : List String) :
    ((CreateDNSRecords cfg (fun _ => true) hostname ips).1).map Prod.fst
      = specSuffixKeys (recordKeyBase cfg.EtcdPrefix hostname) ips 0 0
    ∧ ∀ k ∈ ((CreateDNSRecords cfg (fun _ => true) hostname ips).1).map
        Prod.fst,
        k ≠ recordKeyBase cfg.EtcdPrefix hostname := by
  have hkeys := createDNSRecordsLoop_keys cfg.RecordTTL hostname
    (recordKeyBase cfg.EtcdPrefix hostname) ips 0 0
  refine ⟨hkeys, ?_⟩
  intro k hk heq
  rw [CreateDNSRecords, hkeys] at hk
  have := mem_specSuffixKeys_longer _ ips 0 0 k hk
  rw [heq] at this
  omega

/-- The position of the first key in a put sequence whose store put
fails, if any. -/
def firstFailIdx (putOk : String → Bool) : List String → Option Nat
  | [] => none
  | k :: rest =>
    if putOk k then (firstFailIdx putOk rest).map (· + 1) else some 0

theorem createDNSRecordsLoop_stops (ttl : Nat) (putOk : String → Bool)
    (hostname basePath : String) (ips : List String) (n4 n6 j : Nat)
    (hj : firstFailIdx putOk
        (((createDNSRecordsLoop ttl (fun _ => true) hostname basePath n4 n6
          ips).1).map Prod.fst) = some j) :
    (createDNSRecordsLoop ttl putOk hostname basePath n4 n6 ips).1
      = ((createDNSRecordsLoop ttl (fun _ => true) hostname basePath n4 n6
          ips).1).take j
    ∧ (createDNSRecordsLoop ttl putOk hostname basePath n4 n6 ips).2
      ≠ none := by
  induction ips generalizing n4 n6 j with
  | nil => simp [createDNSRecordsLoop, firstFailIdx] at hj
  | cons ip rest ih =>
    cases hp : parseIP ip with
    | none =>
      simp only [createDNSRecordsLoop, hp] at hj ⊢
      exact ih n4 n6 j hj
    | some b =>
      by_cases h4 : ipTo4 b
      · simp only [createDNSRecordsLoop, hp, h4, if_true, Bool.true_eq,
          List.map_cons, firstFailIdx] at hj ⊢
        by_cases hput : putOk (basePath ++ "/a" ++ toString (n4 + 1))
        · rw [if_pos hput] at hj
          cases hfi : firstFailIdx putOk
              (((createDNSRecordsLoop ttl (fun _ => true) hostname basePath
                (n4 + 1) n6 rest).1).map Prod.fst) with
          | none => rw [hfi] at hj; simp at hj
          | some j' =>
            rw [hfi] at hj
            have hj2 : j' + 1 = j := by simpa using hj
            obtain ⟨h1, h2⟩ := ih (n4 + 1) n6 j' hfi
            rw [if_pos hput]
            subst hj2
            refine ⟨?_, h2⟩
            simp only [List.take_succ_cons]
            exact congrArg (List.cons _) h1
        · rw [if_neg hput] at hj
          simp only [Option.some.injEq] at hj
          rw [if_neg hput]
          subst hj
          refine ⟨by simp, by simp⟩
      · simp only [createDNSRecordsLoop, hp, h4, Bool.false_eq_true,
          if_false, List.map_cons, firstFailIdx] at hj ⊢
        by_cases hput : putOk (basePath ++ "/aaaa" ++ toString (n6 + 1))
        · rw [if_pos hput] at hj
          cases hfi : firstFailIdx putOk
              (((createDNSRecordsLoop ttl (fun _ => true) hostname basePath
                n4 (n6 + 1) rest).1).map Prod.fst) with
          | none => rw [hfi] at hj; simp at hj
          | some j' =>
            rw [hfi] at hj
            have hj2 : j' + 1 = j := by simpa using hj
            obtain ⟨h1, h2⟩ := ih n4 (n6 + 1) j' hfi
            rw [if_pos hput]
            subst hj2
            refine ⟨?_, h2⟩
            simp only [List.take_succ_cons]
            exact congrArg (List.cons _) h1
        · rw [if_neg hput] at hj
          simp only [Option.some.injEq] at hj
          rw [if_neg hput]
          subst hj
          refine ⟨by simp, by simp⟩

/-- C10. The multi-address write is not atomic: when the store put of the
k-th record of a host fails, `CreateDNSRecords` returns an error
immediately — the puts already made (the records for the earlier
addresses) are exactly the first k-1 of the full put sequence and remain
in the store, and no put is attempted for any later address of the host
in that cycle. -/
theorem createDNSRecords_not_atomic (cfg : Config) (putOk : String → Bool)
    (hostname : String) (ips : List String) (j : Nat)
    (hj : firstFailIdx putOk
        (((CreateDNSRecords cfg (fun _ => true) hostname ips).1).map
          Prod.fst) = some j) :
    (CreateDNSRecords cfg putOk hostname ips).1
      = ((CreateDNSRecords cfg (fun _ => true) hostname ips).1).take j
    ∧ (CreateDNSRecords cfg putOk hostname ips).2 ≠ none
    ∧ ∀ σ : Store,
        applyWrites σ (CreateDNSRecords cfg putOk hostname ips).1
          = applyWrites σ
              (((CreateDNSRecords cfg (fun _ => true) hostname ips).1).take
                j) := by
  obtain ⟨h1, h2⟩ := createDNSRecordsLoop_stops cfg.RecordTTL putOk hostname
    (recordKeyBase cfg.EtcdPrefix hostname) ips 0 0 j hj
  exact ⟨h1, h2, fun σ => by rw [CreateDNSRecords, h1]; rfl⟩

/-- Witness for `createDNSRecords_not_atomic`: with three IPv4 addresses
and a store that rejects the key `a2`, only the `a1` record is written
and an error is returned. -/
theorem createDNSRecords_not_atomic_witness :
    (CreateDNSRecords demoCfg
        (fun k => !(k == "/skydns/com/example/h/a2")) "h.example.com"
        ["10.0.0.1", "10.0.0.2", "10.0.0.3"]).1
      = ((CreateDNSRecords demoCfg (fun _ => true) "h.example.com"
          ["10.0.0.1", "10.0.0.2", "10.0.0.3"]).1).take 1
    ∧ (CreateDNSRecords demoCfg
        (fun k => !(k == "/skydns/com/example/h/a2")) "h.example.com"
        ["10.0.0.1", "10.0.0.2", "10.0.0.3"]).2 ≠ none :=
  ⟨(createDNSRecords_not_atomic demoCfg
      (fun k => !(k == "/skydns/com/example/h/a2")) "h.example.com"
      ["10.0.0.1", "10.0.0.2", "10.0.0.3"] 1 (by decide)).1,
   (createDNSRecords_not_atomic demoCfg
      (fun k => !(k == "/skydns/com/example/h/a2")) "h.example.com"
      ["10.0.0.1", "10.0.0.2", "10.0.0.3"] 1 (by decide)).2.1⟩

/-- `dnsRecordJSON` at the fixed ttl 300, with the decimal rendering of
the ttl folded into the surrounding literals. -/
theorem dnsRecordJSON_shape (host : String) :
    dnsRecordJSON host 300
      = (if host = "" then "\x7b\"ttl\":300\x7d"
         else "\x7b\"host\":\"" ++ jsonEscape host
           ++ "\",\"ttl\":300\x7d") := by
  by_cases h : host = ""
  · simp only [dnsRecordJSON, h, if_true]
    decide
  · simp only [dnsRecordJSON, h, if_false]
    apply String.ext
    simp only [String.data_append, List.append_assoc]
    congr 2

/-- The empty string is not an IP literal. -/
theorem parseIP_empty : parseIP "" = none := by decide

theorem createDNSRecordsLoop_values (ttl : Nat) (putOk : String → Bool)
    (hostname basePath : String) (ips : List String) (n4 n6 : Nat) :
    ∀ w ∈ (createDNSRecordsLoop ttl putOk hostname basePath n4 n6 ips).1,
      ∃ ip, (parseIP ip).isSome = true ∧ w.2 = dnsRecordJSON ip ttl := by
  induction ips generalizing n4 n6 with
  | nil => simp [createDNSRecordsLoop]
  | cons ip rest ih =>
    intro w hw
    cases hp : parseIP ip with
    | none =>
      simp only [createDNSRecordsLoop, hp] at hw
      exact ih n4 n6 w hw
    | some b =>
      by_cases h4 : ipTo4 b
      · simp only [createDNSRecordsLoop, hp, h4, if_true] at hw
        by_cases hput : putOk (basePath ++ "/a" ++ toString (n4 + 1))
        · rw [if_pos hput] at hw
          rcases List.mem_cons.mp hw with hw | hw
          · subst hw; exact ⟨ip, by simp [hp], rfl⟩
          · exact ih (n4 + 1) n6 w hw
        · rw [if_neg hput] at hw
          simp at hw
      · simp only [createDNSRecordsLoop, hp, h4, Bool.false_eq_true,
          if_false] at hw
        by_cases hput : putOk (basePath ++ "/aaaa" ++ toString (n6 + 1))
        · rw [if_pos hput] at hw
          rcases List.mem_cons.mp hw with hw | hw
          · subst hw; exact ⟨ip, by simp [hp], rfl⟩
          · exact ih n4 (n6 + 1) w hw
        · rw [if_neg hput] at hw
          simp at hw

/-- The default configuration with an empty DNS target. -/
def emptyTargetCfg : Config :=
  { demoCfg with DNSTarget := "" }

/-- C9 counterexample: with an empty configured target, the `omitempty`
tag on the `host` field makes `json.Marshal` drop it — the value written
by `CreateDNSRecord` is `{"ttl":300}`, not `{"host":"","ttl":300}` as
the claim requires for the empty-target case. -/
theorem emptyTarget_value_omits_host :
    (CreateDNSRecord emptyTargetCfg "a.example.com").2 = "\x7b\"ttl\":300\x7d"
    ∧ ("\x7b\"ttl\":300\x7d" : String)
      ≠ "\x7b\"host\":\"\",\"ttl\":300\x7d" := by
  exact ⟨by decide, by decide⟩

/-- C9 (amended). Every value written to the record store has the ttl
field equal to 300 (the hard-coded process-wide value): Docker-side
writes are the UTF-8 JSON `{"host":"<target>","ttl":300}` whenever the
configured target is non-empty, but `{"ttl":300}` when it is empty (the
`host` field carries `omitempty`); Proxmox-side multi-address writes are
always `{"host":"<ip>","ttl":300}`, the address being a valid non-empty
IP literal. -/
theorem record_value_shape (cfg : Config) (hostname : String)
    (ips : List String) (putOk : String → Bool) (h : cfg.RecordTTL = 300) :
    (CreateDNSRecord cfg hostname).2
      = (if cfg.DNSTarget = "" then "\x7b\"ttl\":300\x7d"
         else "\x7b\"host\":\"" ++ jsonEscape cfg.DNSTarget
           ++ "\",\"ttl\":300\x7d")
    ∧ ∀ w ∈ (CreateDNSRecords cfg putOk hostname ips).1,
        ∃ ip, (parseIP ip).isSome = true ∧ ip ≠ ""
          ∧ w.2 = "\x7b\"host\":\"" ++ jsonEscape ip
              ++ "\",\"ttl\":300\x7d" := by
  constructor
  · show dnsRecordJSON cfg.DNSTarget cfg.RecordTTL = _
    rw [h]
    exact dnsRecordJSON_shape cfg.DNSTarget
  · intro w hw
    obtain ⟨ip, hip, hval⟩ := createDNSRecordsLoop_values cfg.RecordTTL putOk
      hostname (recordKeyBase cfg.EtcdPrefix hostname) ips 0 0 w hw
    have hne : ip ≠ "" := by
      intro he
      rw [he, parseIP_empty] at hip
      simp at hip
    refine ⟨ip, hip, hne, ?_⟩
    rw [hval, h, dnsRecordJSON_shape, if_neg hne]

/-- Witness for `record_value_shape` at the default configuration and a
concrete host with one IPv4 and one IPv6 address. -/
theorem record_value_shape_witness :
    (CreateDNSRecord demoCfg "a.example.com").2
      = (if demoCfg.DNSTarget = "" then "\x7b\"ttl\":300\x7d"
         else "\x7b\"host\":\"" ++ jsonEscape demoCfg.DNSTarget
           ++ "\",\"ttl\":300\x7d") :=
  (record_value_shape demoCfg "a.example.com" ["10.0.0.1", "2001:db8::1"]
    (fun _ => true) (by decide)).1

/-! ## Docker-side discovery (docker.go)

`extractHostsFromLabels` scans every label whose key contains both
`traefik.http.routers.` and `.rule`, collecting the captures of the
regular expression `Host\(\s*<backquote>([^<backquote>]+)<backquote>\s*\)`
(the Traefik `Host(...)` clauses with backquote-quoted arguments), in
order.  `SyncExistingContainers` writes one `CreateDNSRecord` put per
extracted host of every running container; a failed put is logged and
the loop continues. -/

/-- The backquote character (0x60) delimiting `Host(...)` arguments. -/
def backquoteChar : Char := Char.ofNat 96

/-- `\s` of the Go regexp engine: `[ \t\n\f\r]`. -/
def isRegexSpace (c : Char) : Bool :=
  c == ' ' || c == '\t' || c == '\n' || c == '\r' || c == Char.ofNat 12

/-- Match the tail of the rule pattern after a literal `Host(`:
optional whitespace, a backquote, a non-empty backquote-free capture, a
backquote, optional whitespace and `)`; returns the capture and the
remaining text after the match. -/
def matchHostTail (cs : List Char) : Option (List Char × List Char) :=
  match cs.dropWhile isRegexSpace with
  | [] => none
  | c :: rest =>
    if c = backquoteChar then
      let cap := rest.takeWhile (fun d => !(d == backquoteChar))
      if cap = [] then none
      else
        match rest.drop cap.length with
        | c2 :: rest2 =>
          if c2 = backquoteChar then
            match rest2.dropWhile isRegexSpace with
            | ')' :: rest3 => some (cap, rest3)
            | _ => none
          else none
        | [] => none
    else none

/-- Left-to-right scan collecting every non-overlapping match of the
rule pattern, as `regexp.FindAllStringSubmatch` does on this pattern:
at each position try an anchored match, emit the capture and resume
after the match, else advance one character.  The fuel starts at the
text length; every step consumes at least one character, so it never
runs out before the text does. -/
def findHostsAux : Nat → List Char → List String
  | 0, _ => []
  | _ + 1, [] => []
  | fuel + 1, c :: cs =>
    if ['H', 'o', 's', 't', '('].isPrefixOf (c :: cs) then
      match matchHostTail ((c :: cs).drop 5) with
      | some (cap, rest) => String.mk cap :: findHostsAux fuel rest
      | none => findHostsAux fuel cs
    else findHostsAux fuel cs

/-- All `Host(...)` captures of one label value, in order. -/
def findHostMatches (s : String) : List String :=
  findHostsAux s.data.length s.data

/-- `extractHostsFromLabels` (docker.go).  Labels are modelled as an
association list in iteration order; Go map iteration order is
unspecified, which changes only the order of hosts, not the store
contents, since all Docker writes share one value. -/
def extractHostsFromLabels (labels : List (String × String)) : List String :=
  labels.flatMap (fun kv =>
    if goContains kv.1 "traefik.http.routers." && goContains kv.1 ".rule" then
      findHostMatches kv.2
    else [])

/-- A running container as the sync phase reads it: its label map. -/
structure DockerContainer where
  Labels : List (String × String)

/-- The put sequence of one Docker sync pass: one `CreateDNSRecord` put
per host extracted from each container's labels. -/
def syncWrites (cfg : Config) (containers : List DockerContainer) :
    List (String × String) :=
  containers.flatMap (fun c =>
    (extractHostsFromLabels c.Labels).map (fun h => CreateDNSRecord cfg h))

/-- `SyncExistingContainers` (docker.go) as a store transformer: the
whole put sequence applied in order (per-host put failures are logged
and the loop continues; puts here always succeed). -/
def SyncExistingContainers (cfg : Config) (containers : List DockerContainer)
    (σ : Store) : Store :=
  applyWrites σ (syncWrites cfg containers)

/-- C5. Re-running the Docker sync phase against identical container
state writes the same keys with byte-identical values, so the store
after two runs is byte-identical to the store after one run: the sync
is idempotent. -/
theorem dockerSync_idempotent (cfg : Config)
    (containers : List DockerContainer) (σ : Store) :
    SyncExistingContainers cfg containers
        (SyncExistingContainers cfg containers σ)
      = SyncExistingContainers cfg containers σ :=
  applyWrites_idem σ (syncWrites cfg containers)

/-! ## Proxmox per-resource processing (proxmox.go) -/

/-- A Proxmox resource as `processVM` / `processContainer` read it:
its name and raw `;`-separated tag string (the status filter is applied
by the caller, `syncAllResources`). -/
structure VMResource where
  Name : String
  Tags : String

/-- `processVM` (proxmox.go) as the put sequence it performs: nothing
for a `dnsherpa-skip`-tagged VM; otherwise resolve the hostname and the
addresses (splitting the tag string on `;` when non-empty) and run
`CreateDNSRecords`; no puts when no address resolves. -/
def processVM (cfg : Config) (putOk : String → Bool) (vm : VMResource)
    (data : InterfaceData) : List (String × String) :=
  if HasTag vm.Tags "dnsherpa-skip" then []
  else
    let hostname := generateHostname cfg vm.Name
    let vmTags := if vm.Tags ≠ "" then goSplit vm.Tags ';' else []
    let ips := getResourceIPs cfg vmTags "qemu" data
    if ips = [] then []
    else (CreateDNSRecords cfg putOk hostname ips).1

/-- `processContainer` (proxmox.go): the same flow for an LXC
container. -/
def processContainer (cfg : Config) (putOk : String → Bool)
    (ct : VMResource) (data : InterfaceData) : List (String × String) :=
  if HasTag ct.Tags "dnsherpa-skip" then []
  else
    let hostname := generateHostname cfg ct.Name
    let ctTags := if ct.Tags ≠ "" then goSplit ct.Tags ';' else []
    let ips := getResourceIPs cfg ctTags "lxc" data
    if ips = [] then []
    else (CreateDNSRecords cfg putOk hostname ips).1

/-- C6. A resource carrying the `dnsherpa-skip` tag terminates resolution
with no output: zero record-store puts are performed for it in that
cycle, whatever other tags it carries and whatever the live interface
data says — for VMs and containers alike. -/
theorem skip_tag_zero_writes (cfg : Config) (putOk : String → Bool)
    (res : VMResource) (data : InterfaceData)
    (h : HasTag res.Tags "dnsherpa-skip" = true) :
    processVM cfg putOk res data = []
    ∧ processContainer cfg putOk res data = [] := by
  constructor <;> simp only [processVM, processContainer, h, if_true]

/-- Witness for `skip_tag_zero_writes`: a resource whose tag string also
carries other recognized tags, including an explicit address override,
still produces zero puts. -/
theorem skip_tag_zero_writes_witness :
    processVM demoCfg (fun _ => true)
        ⟨"web", "foo;dnsherpa-skip;dnsherpa-ip:192.0.2.5"⟩
        exampleAgentData = []
    ∧ processContainer demoCfg (fun _ => true)
        ⟨"web", "foo;dnsherpa-skip;dnsherpa-ip:192.0.2.5"⟩
        exampleAgentData = [] :=
  skip_tag_zero_writes demoCfg (fun _ => true)
    ⟨"web", "foo;dnsherpa-skip;dnsherpa-ip:192.0.2.5"⟩
    exampleAgentData (by decide)
